import Mathlib

/-!
# watchspawn: event filter and debounce loop

A shallow embedding of `main.go`.

* Go strings are lists of characters (code points); the only bytes the program
  inspects are the ASCII `.`, `/` and `,` and the white space that
  `strings.TrimSpace` removes, so bytes and code points agree on them.
* `fsnotify.Op` is an unsigned bit set, a natural number, `&` is `&&&`.
* `map[string]bool` is an association list with at most one entry per key.
* `time.Time` is a number of nanoseconds, `time.Duration` an integer, and
  `Time.Sub` is the saturating difference of the Go library.
* The goroutine of `main` is a step function over the case that `select` takes.
-/

namespace Watchspawn

/-! ## Strings -/

/-- A Go string. -/
abbrev GoString := List Char

/-- The loop of `path.Ext`: `n` is `i + 1` for the index `i` that the Go loop
inspects, going down from `len(path) - 1`; it stops at a slash. -/
def extLoop (path : GoString) : Nat → GoString
  | 0 => []
  | i + 1 =>
    if path.getD i ' ' = '/' then []
    else if path.getD i ' ' = '.' then path.drop i
    else extLoop path i

/-- Go `path.Ext`: the suffix starting at the final dot of the final
slash-separated element, empty when there is no dot. -/
def Ext (path : GoString) : GoString := extLoop path path.length

/-- Go `strings.TrimLeft(s, cutset)`: all leading characters contained in
`cutset` removed. -/
def TrimLeft (s cutset : GoString) : GoString := s.dropWhile (fun c => cutset.contains c)

/-- Go `unicode.IsSpace`. -/
def isSpace (c : Char) : Bool :=
  c = '\t' || c = '\n' || c.val = 0x0B || c.val = 0x0C || c = '\r' || c = ' ' ||
  c.val = 0x85 || c.val = 0xA0 || c.val = 0x1680 ||
  (0x2000 ≤ c.val && c.val ≤ 0x200A) ||
  c.val = 0x2028 || c.val = 0x2029 || c.val = 0x202F || c.val = 0x205F || c.val = 0x3000

/-- Go `strings.TrimSpace`: leading and trailing white space removed. -/
def TrimSpace (s : GoString) : GoString :=
  ((s.dropWhile isSpace).reverse.dropWhile isSpace).reverse

/-- Go `explode`: the string cut into its characters (used by `Split` for an
empty separator). -/
def explode (s : GoString) : List GoString := s.map (fun c => [c])

/-- The loop of Go `genSplit` for a non-empty separator: `cur` holds, reversed,
the characters of the piece being read. The fuel bounds the number of
characters still to be read. -/
def splitLoop (sep : GoString) : Nat → GoString → GoString → List GoString
  | 0, cur, _ => [cur.reverse]
  | _ + 1, cur, [] => [cur.reverse]
  | fuel + 1, cur, c :: rest =>
    if sep.isPrefixOf (c :: rest) then
      cur.reverse :: splitLoop sep fuel [] ((c :: rest).drop sep.length)
    else splitLoop sep fuel (c :: cur) rest

/-- Go `strings.Split(s, sep)`. -/
def Split (s sep : GoString) : List GoString :=
  if sep = [] then explode s else splitLoop sep (s.length + 1) [] s

/-- `splitTrimSpace` of `main.go`: `strings.Split`, then `strings.TrimSpace` on
every piece. -/
def splitTrimSpace (s sep : GoString) : List GoString :=
  (Split s sep).map TrimSpace

/-! ## fsnotify events -/

/-- The type `fsnotify.Op`: a bit set of operation kinds. -/
abbrev Op := Nat

/-- The bit `fsnotify.Create`. -/
def Create : Op := 1
/-- The bit `fsnotify.Write`. -/
def Write : Op := 2
/-- The bit `fsnotify.Remove`. -/
def Remove : Op := 4
/-- The bit `fsnotify.Rename`. -/
def Rename : Op := 8
/-- The bit `fsnotify.Chmod`. -/
def Chmod : Op := 16

/-- The type `fsnotify.Event`. -/
structure Event where
  Name : GoString
  Op : Op
deriving DecidableEq, Repr

/-! ## The event filter -/

/-- A Go `map[string]bool`. -/
abbrev Cache := List (GoString × Bool)

/-- Map lookup `m[k]` with the comma-ok result. -/
def Cache.get (m : Cache) (k : GoString) : Option Bool := m.lookup k

/-- Map assignment `m[k] = v`. -/
def Cache.set (m : Cache) (k : GoString) (v : Bool) : Cache :=
  (k, v) :: m.filter (fun e => e.1 ≠ k)

/-- The struct `eventFilter` (its field `minWait` is never read or written). -/
structure eventFilter where
  ops : List Op
  suffixes : List GoString
  cache : Cache
deriving DecidableEq, Repr

/-- The constructor `newEventFilter`. -/
def newEventFilter (suffixes : List GoString) (ops : List Op) : eventFilter :=
  { suffixes := suffixes, ops := ops, cache := [] }

/-- The first loop of `check`: the disjunction, over the configured operations,
of `event.Op&op == op`. -/
def interestingOp (ops : List Op) (event : Event) : Bool :=
  ops.foldl (fun acc op => acc || (event.Op &&& op == op)) false

/-- The suffix that `check` compares:
`strings.TrimLeft(path.Ext(event.Name), ".")`. -/
def suffixOf (name : GoString) : GoString := TrimLeft (Ext name) ['.']

/-- The second loop of `check`: is `suffix` equal to one of the suffixes. -/
def matchSuffix (suffixes : List GoString) (suffix : GoString) : Bool :=
  match suffixes with
  | [] => false
  | s :: rest => if suffix = s then true else matchSuffix rest suffix

/-- The method `eventFilter.check`: the answer and the filter afterwards. -/
def eventFilter.check (ef : eventFilter) (event : Event) : Bool × eventFilter :=
  if !interestingOp ef.ops event then (false, ef)
  else
    match ef.cache.get event.Name with
    | some interestingName => (interestingName, ef)
    | none =>
      if matchSuffix ef.suffixes (suffixOf event.Name) then
        (true, { ef with cache := ef.cache.set event.Name true })
      else
        (false, { ef with cache := ef.cache.set event.Name false })

/-- The filter after `check` has been called on every event of a list, in
order: the states that a filter reaches when it is used only through `check`. -/
def checkAll (ef : eventFilter) : List Event → eventFilter
  | [] => ef
  | e :: rest => checkAll (ef.check e).2 rest

/-! ## Notions used to state and prove the claims on the filter -/

/-- The final slash-separated segment of a path. -/
def finalSegment (name : GoString) : GoString :=
  (name.reverse.takeWhile (fun c => c ≠ '/')).reverse

/-- The filename suffix in the words of the specification: the substring after
the last dot of the final path segment, empty if there is none. -/
def filenameSuffix (name : GoString) : GoString :=
  if '.' ∈ finalSegment name then
    ((finalSegment name).reverse.takeWhile (fun c => c ≠ '.')).reverse
  else []

/-- The scan of `path.Ext` read on the reversed path. -/
def scanRev : GoString → GoString → GoString
  | [], _ => []
  | c :: r, post =>
    if c = '/' then [] else if c = '.' then c :: post else scanRev r (c :: post)

/-- The cache of a filter agrees with the suffix list: every stored boolean is
the one that the suffix comparison gives for its path. -/
def CacheOK (ef : eventFilter) : Prop :=
  ∀ name b, ef.cache.get name = some b → b = matchSuffix ef.suffixes (suffixOf name)

/-! ## Configuration -/

/-- The struct `config`. -/
structure config where
  command : GoString
  args : List GoString
  suffixes : List GoString
  minWait : Int
deriving DecidableEq, Repr

/-- The constant `time.Millisecond`, in nanoseconds. -/
def Millisecond : Int := 1000000

/-- The two variables that the flag package writes: `c.minWait`, registered by
`flag.DurationVar`, and `*suff`, the string that `flag.String` returns a
pointer to. -/
structure FlagVars where
  minWait : Int
  suff : GoString
deriving DecidableEq, Repr

/-- The search of `parseOne` for the first `=` at an index of at least one:
the flag name before it and the value after it. -/
def splitAtEq (name : GoString) : Option (GoString × GoString) :=
  match name with
  | [] => none
  | c :: rest =>
    match rest.span (fun d => d ≠ '=') with
    | (a, _ :: b) => some (c :: a, b)
    | (_, []) => none

/-- The lookup of a flag name among the registered flags, `f.formal[name]` in
`parseOne`: an unknown name is an error, `help` and `h` ask for the usage. -/
def lookupFlag (name : GoString) : Except String Unit :=
  if name = "min-wait".toList ∨ name = "suffixes".toList then .ok ()
  else if name = "help".toList ∨ name = "h".toList then .error "flag: help requested"
  else .error "flag provided but not defined"

/-- The step `flag.Value.Set` of the two registered flags. The parser of
durations, `time.ParseDuration`, is a parameter. -/
def setFlag (parseDuration : GoString → Option Int) (vars : FlagVars) (name value : GoString) :
    Except String FlagVars :=
  if name = "min-wait".toList then
    match parseDuration value with
    | some d => .ok { vars with minWait := d }
    | none => .error "invalid value for flag"
  else .ok { vars with suff := value }

/-- Go `flag.Parse` on the command line after the program name, for the two
flags of `configure`, neither of which is boolean: the variables afterwards and
the remaining, positional arguments. An error stands for the exit of the
process that `flag.ExitOnError` asks for. -/
def flagParse (parseDuration : GoString → Option Int) :
    FlagVars → List GoString → Except String (FlagVars × List GoString)
  | vars, [] => .ok (vars, [])
  | vars, s :: rest =>
    if s.length < 2 ∨ s.head? ≠ some '-' then .ok (vars, s :: rest)
    else if s = ['-', '-'] then .ok (vars, rest)
    else
      let name := if s.getD 1 ' ' = '-' then s.drop 2 else s.drop 1
      if name = [] ∨ name.head? = some '-' ∨ name.head? = some '=' then
        .error "bad flag syntax"
      else
        match splitAtEq name with
        | some (n, value) =>
          match lookupFlag n with
          | .error e => .error e
          | .ok _ =>
            match setFlag parseDuration vars n value with
            | .ok vars2 => flagParse parseDuration vars2 rest
            | .error e => .error e
        | none =>
          match lookupFlag name with
          | .error e => .error e
          | .ok _ =>
            -- the flag must have a value, which is the next argument
            match rest with
            | [] => .error "flag needs an argument"
            | value :: rest2 =>
              match setFlag parseDuration vars name value with
              | .ok vars2 => flagParse parseDuration vars2 rest2
              | .error e => .error e

/-- The function `configure` on the arguments `os.Args[1:]`. The suffixes are
split from `*suff` before `flag.Parse` runs, as in the source. -/
def configure (parseDuration : GoString → Option Int) (osArgs : List GoString) :
    Except String config :=
  -- flag.DurationVar and flag.String store the defaults in the variables
  let vars : FlagVars := { minWait := 250 * Millisecond, suff := "go,mod,sum".toList }
  let suffixes := splitTrimSpace vars.suff [',']
  match flagParse parseDuration vars osArgs with
  | .error e => .error e
  | .ok (vars2, args) =>
    match args with
    | [] => .error "a command must be specified"
    | command :: rest =>
      .ok { command := command, args := rest, suffixes := suffixes, minWait := vars2.minWait }

/-! ## Time -/

/-! An instant `time.Time` is an integer, the nanoseconds since the zero `Time`;
a `time.Duration` is an integer number of nanoseconds. -/

/-- The constant `maxDuration` of package `time`. -/
def maxDuration : Int := 2 ^ 63 - 1

/-- The constant `minDuration` of package `time`. -/
def minDuration : Int := -(2 ^ 63)

/-- Go `t.Sub(u)`: the duration `t - u`, or the largest or smallest duration
when the difference does not fit. -/
def Time.Sub (t u : Int) : Int :=
  if t - u > maxDuration then maxDuration
  else if t - u < minDuration then minDuration
  else t - u

/-! ## The control loop -/

/-- What the goroutine of the loop is doing: going round the `select`, parked
for ever in the send `doit <- true` on a full channel, or gone by `return`. -/
inductive Phase
  | running
  | blocked
  | returned
deriving DecidableEq, Repr

/-- The variables of the goroutine: the filter, `last`, `waiting`, and the
buffer of the channel `doit`, which has capacity one. -/
structure LoopState where
  filter : eventFilter
  last : Int
  waiting : Bool
  doit : List Bool
  phase : Phase
deriving DecidableEq, Repr

/-- The case that `select` takes, with the value received. For an event, `now`
is the value that `time.Now()` returns if the handler calls it. -/
inductive Input
  | event (ev : Event) (now : Int)
  | eventsClosed
  | error
  | errorsClosed
  | tick (t : Int)
  | doit
deriving DecidableEq, Repr

/-- What one pass of the loop does that can be seen from outside: nothing, an
error printed, a run-trigger sent on `doit`, a send that blocks on the full
channel, the command run, the goroutine returning; `notReady` is the answer
for a case that `select` cannot take in that state. -/
inductive Effect
  | nothing
  | printed
  | sent
  | stuck
  | ran
  | stopped
  | notReady
deriving DecidableEq, Repr

/-- The interval `cfg.minWait / 4` given to `time.NewTicker`; Go division
truncates. -/
def tickerInterval (cfg : config) : Int := Int.tdiv cfg.minWait 4

/-- The state in which the goroutine enters the loop: the filter that `main`
builds, `last` the zero `Time`, `waiting` false, `doit` empty. -/
def loopInit (cfg : config) : LoopState :=
  { filter := newEventFilter cfg.suffixes [Write, Create]
    last := 0
    waiting := false
    doit := []
    phase := Phase.running }

/-- The start of the goroutine: `time.NewTicker` panics when the interval is
not positive. -/
def loopStart (cfg : config) : Option LoopState :=
  if tickerInterval cfg ≤ 0 then none else some (loopInit cfg)

/-- One pass of the `for`/`select` loop of `main`, for the case that `select`
takes. A goroutine that is blocked or has returned takes no case, and the
receive from `doit` is not ready while the channel is empty. -/
def loopStep (cfg : config) (s : LoopState) (i : Input) : LoopState × Effect :=
  if s.phase ≠ Phase.running then (s, Effect.notReady)
  else
    match i with
    | Input.event ev now =>
      let r := s.filter.check ev
      if r.1 then ({ s with filter := r.2, last := now, waiting := true }, Effect.nothing)
      else ({ s with filter := r.2 }, Effect.nothing)
    | Input.eventsClosed => ({ s with phase := Phase.returned }, Effect.stopped)
    | Input.error => (s, Effect.printed)
    | Input.errorsClosed => ({ s with phase := Phase.returned }, Effect.stopped)
    | Input.tick t =>
      let age := Time.Sub t s.last
      if s.waiting && decide (age > cfg.minWait) then
        if s.doit.length < 1 then ({ s with doit := s.doit ++ [true] }, Effect.sent)
        else ({ s with phase := Phase.blocked }, Effect.stuck)
      else (s, Effect.nothing)
    | Input.doit =>
      match s.doit with
      | [] => (s, Effect.notReady)
      | _ :: rest => ({ s with doit := rest, waiting := false }, Effect.ran)

/-- The loop run over a list of cases taken by `select`, in order: the final
state and the effect of every pass. -/
def runLoop (cfg : config) (s : LoopState) : List Input → LoopState × List Effect
  | [] => (s, [])
  | i :: rest =>
    ((runLoop cfg (loopStep cfg s i).1 rest).1,
      (loopStep cfg s i).2 :: (runLoop cfg (loopStep cfg s i).1 rest).2)

/-- A part of a burst: the ticks handled before an interesting event, then the
event with the time of its handling. -/
structure Round where
  ticks : List Int
  ev : Event
  now : Int
deriving DecidableEq, Repr

/-- The cases that `select` takes in a round. -/
def Round.inputs (r : Round) : List Input :=
  r.ticks.map Input.tick ++ [Input.event r.ev r.now]

/-- The cases that `select` takes in a burst. -/
def burstInputs : List Round → List Input
  | [] => []
  | r :: rest => r.inputs ++ burstInputs rest

/-- An event that the specification calls interesting for the filter of
`main`: its operation set intersects write or create, and its filename suffix
is one of the suffixes. -/
def Interesting (suffixes : List GoString) (ev : Event) : Prop :=
  (∃ op ∈ [Write, Create], ev.Op &&& op ≠ 0) ∧ filenameSuffix ev.Name ∈ suffixes

instance (suffixes : List GoString) (ev : Event) : Decidable (Interesting suffixes ev) :=
  inferInstanceAs (Decidable (_ ∧ _))

/-- The handling times of the events that the filter accepts along a list of
cases taken by `select`, in order, the filter being used through `check` on
every event of the list. -/
def acceptedTimes (ef : eventFilter) : List Input → List Int
  | [] => []
  | Input.event ev now :: rest =>
    if (ef.check ev).1 then now :: acceptedTimes (ef.check ev).2 rest
    else acceptedTimes (ef.check ev).2 rest
  | Input.eventsClosed :: rest => acceptedTimes ef rest
  | Input.error :: rest => acceptedTimes ef rest
  | Input.errorsClosed :: rest => acceptedTimes ef rest
  | Input.tick _ :: rest => acceptedTimes ef rest
  | Input.doit :: rest => acceptedTimes ef rest

/-- The time at which the last event of a burst is handled. -/
def lastNow : Round → List Round → Int
  | r, [] => r.now
  | _, r2 :: rest => lastNow r2 rest

/-- The loop between two passes, no run-trigger pending: the goroutine is
running, the filter is the one that `main` built, used only through `check`,
and the channel `doit` is empty. -/
def Settled (cfg : config) (s : LoopState) : Prop :=
  s.phase = Phase.running ∧ CacheOK s.filter ∧ s.filter.ops = [Write, Create] ∧
    s.filter.suffixes = cfg.suffixes ∧ s.doit = []

/-! ## Concrete data for the examples -/

/-- The configuration of `watchspawn go test` with the default flags. -/
def defaultConfig : config :=
  { command := "go".toList
    args := ["test".toList]
    suffixes := ["go".toList, "mod".toList, "sum".toList]
    minWait := 250 * Millisecond }

/-- A write to `main.go`. -/
def writeMain : Event := { Name := "main.go".toList, Op := Write }

/-- A file `go.mod` created and written. -/
def createMod : Event := { Name := "go.mod".toList, Op := Create ||| Write }

/-- A write to `notes.txt`, whose suffix is not configured. -/
def writeNotes : Event := { Name := "notes.txt".toList, Op := Write }

/-! ## Lemmas on strings and on the filter -/

theorem extLoop_append (pre : GoString) :
    ∀ post : GoString, extLoop (pre ++ post) pre.length = scanRev pre.reverse post := by
  induction pre using List.reverseRecOn with
  | nil => intro post; simp [extLoop, scanRev]
  | append_singleton p c ih =>
    intro post
    have hget : (p ++ [c] ++ post).getD p.length ' ' = c := by
      have : (p ++ [c] ++ post)[p.length]? = some c := by
        rw [List.append_assoc, List.getElem?_append_right (le_refl _)]; simp
      rw [List.getD_eq_getElem?_getD, this]; rfl
    have hdrop : (p ++ [c] ++ post).drop p.length = c :: post := by
      simp [List.drop_append_eq_append_drop]
    have hre : p ++ [c] ++ post = p ++ (c :: post) := by simp
    simp only [List.length_append, List.length_singleton, extLoop, hget, hdrop,
      List.reverse_append, List.reverse_singleton, List.singleton_append, scanRev]
    rw [hre, ih (c :: post)]

theorem Ext_eq_scanRev (name : GoString) : Ext name = scanRev name.reverse [] := by
  have h := extLoop_append name []
  simpa [Ext] using h


theorem trimLeft_scanRev (r : GoString) :
    ∀ post : GoString, '.' ∉ post →
      TrimLeft (scanRev r post) ['.'] =
        if '.' ∈ r.takeWhile (fun c => c ≠ '/') then
          ((r.takeWhile (fun c => c ≠ '/')).takeWhile (fun c => c ≠ '.')).reverse ++ post
        else [] := by
  induction r with
  | nil => intro post _; simp [scanRev, TrimLeft]
  | cons c r ih =>
    intro post hpost
    by_cases h1 : c = '/'
    · subst h1; simp [scanRev, TrimLeft]
    · by_cases h2 : c = '.'
      · subst h2
        have hdw : TrimLeft ('.' :: post) ['.'] = post := by
          cases post with
          | nil => rfl
          | cons d ds =>
            have hd : d ≠ '.' := fun e => hpost (by simp [e])
            simp [TrimLeft, List.dropWhile, hd]
        have htw : List.takeWhile (fun c => decide (c ≠ '/')) ('.' :: r) =
            '.' :: List.takeWhile (fun c => decide (c ≠ '/')) r := by
          simp [List.takeWhile]
        rw [htw]
        simp only [scanRev, h1, if_false, if_true, hdw]
        simp [List.takeWhile]
      · have hpost2 : '.' ∉ c :: post := by
          simp only [List.mem_cons, not_or]
          exact ⟨fun e => h2 e.symm, hpost⟩
        have hne : ¬ '.' = c := fun e => h2 e.symm
        simp only [scanRev, h1, h2, if_false, ih (c :: post) hpost2]
        simp [List.takeWhile, h1, h2, hne]

/-- The suffix that `check` computes is the filename suffix of the
specification. -/
theorem suffixOf_eq_filenameSuffix (name : GoString) :
    suffixOf name = filenameSuffix name := by
  unfold suffixOf filenameSuffix finalSegment
  rw [Ext_eq_scanRev, trimLeft_scanRev name.reverse [] (by simp)]
  simp

theorem interestingOp_fold (event : Event) (ops : List Op) :
    ∀ acc : Bool,
      ops.foldl (fun acc op => acc || (event.Op &&& op == op)) acc
        = (acc || ops.any (fun op => event.Op &&& op == op)) := by
  induction ops with
  | nil => intro acc; simp
  | cons o os ih => intro acc; simp [List.foldl, ih, Bool.or_assoc]

theorem interestingOp_iff (ops : List Op) (event : Event) :
    interestingOp ops event = true ↔ ∃ op ∈ ops, event.Op &&& op = op := by
  unfold interestingOp
  rw [interestingOp_fold]
  simp

theorem land_two_pow_iff (e k : Nat) : e &&& 2 ^ k = 2 ^ k ↔ e &&& 2 ^ k ≠ 0 := by
  rw [Nat.and_two_pow]
  have hpos : 0 < 2 ^ k := Nat.two_pow_pos k
  cases e.testBit k
  · simp; omega
  · simp

theorem matchSuffix_iff (suffixes : List GoString) (suffix : GoString) :
    matchSuffix suffixes suffix = true ↔ suffix ∈ suffixes := by
  induction suffixes with
  | nil => simp [matchSuffix]
  | cons s rest ih =>
    unfold matchSuffix
    by_cases h : suffix = s
    · simp [h]
    · simp [h, ih]

theorem cache_get_set (m : Cache) (k k2 : GoString) (v : Bool) :
    (m.set k v).get k2 = if k2 = k then some v else m.get k2 := by
  unfold Cache.set Cache.get
  by_cases h : k2 = k
  · subst h; simp [List.lookup]
  · have hb : (k2 == k) = false := by simpa using h
    simp only [List.lookup, hb, h, if_false]
    induction m with
    | nil => rfl
    | cons e es ih =>
      obtain ⟨a, b⟩ := e
      simp only [ne_eq, decide_not] at ih ⊢
      by_cases ha : a = k
      · subst ha
        simp [List.filter, List.lookup, hb, ih]
      · by_cases h2 : k2 = a
        · subst h2; simp [List.filter, List.lookup, ha]
        · have hb2 : (k2 == a) = false := by simpa using h2
          simp [List.filter, List.lookup, ha, hb2, ih]

theorem check_ops (ef : eventFilter) (event : Event) : (ef.check event).2.ops = ef.ops := by
  unfold eventFilter.check
  split
  · rfl
  · split
    · rfl
    · split <;> rfl

theorem check_suffixes (ef : eventFilter) (event : Event) :
    (ef.check event).2.suffixes = ef.suffixes := by
  unfold eventFilter.check
  split
  · rfl
  · split
    · rfl
    · split <;> rfl

theorem check_cacheOK (ef : eventFilter) (event : Event) (h : CacheOK ef) :
    CacheOK (ef.check event).2 := by
  unfold eventFilter.check
  split
  · exact h
  · split
    · exact h
    · split
      · rename_i hm
        intro name b hget
        simp only [cache_get_set] at hget
        by_cases hn : name = event.Name
        · subst hn; simp at hget; rw [hm]; exact hget
        · simp only [hn, if_false] at hget; exact h name b hget
      · rename_i hm
        intro name b hget
        simp only [cache_get_set] at hget
        by_cases hn : name = event.Name
        · subst hn
          simp at hget
          have hm2 : matchSuffix ef.suffixes (suffixOf event.Name) = false := by simpa using hm
          rw [hm2]; exact hget
        · simp only [hn, if_false] at hget; exact h name b hget

theorem check_fst_of_cacheOK (ef : eventFilter) (event : Event) (h : CacheOK ef) :
    (ef.check event).1 =
      (interestingOp ef.ops event && matchSuffix ef.suffixes (suffixOf event.Name)) := by
  unfold eventFilter.check
  split
  · rename_i hop; simp at hop; simp [hop]
  · rename_i hop
    simp at hop
    split
    · rename_i b hb; simp [hop, h _ _ hb]
    · split
      · rename_i hm; simp [hop, hm]
      · rename_i hm; simp at hm; simp [hop, hm]

theorem checkAll_spec (history : List Event) :
    ∀ ef : eventFilter, CacheOK ef →
      CacheOK (checkAll ef history) ∧ (checkAll ef history).ops = ef.ops ∧
        (checkAll ef history).suffixes = ef.suffixes := by
  induction history with
  | nil => intro ef h; exact ⟨h, rfl, rfl⟩
  | cons e rest ih =>
    intro ef h
    obtain ⟨h1, h2, h3⟩ := ih (ef.check e).2 (check_cacheOK ef e h)
    exact ⟨h1, by rw [checkAll, h2, check_ops], by rw [checkAll, h3, check_suffixes]⟩

theorem newEventFilter_cacheOK (suffixes : List GoString) (ops : List Op) :
    CacheOK (newEventFilter suffixes ops) := by
  intro name b h
  simp [newEventFilter, Cache.get] at h

theorem check_reachable (suffixes : List GoString) (ops : List Op) (history : List Event)
    (event : Event) :
    ((checkAll (newEventFilter suffixes ops) history).check event).1 =
      (interestingOp ops event && matchSuffix suffixes (suffixOf event.Name)) := by
  obtain ⟨h1, h2, h3⟩ := checkAll_spec history _ (newEventFilter_cacheOK suffixes ops)
  rw [check_fst_of_cacheOK _ _ h1, h2, h3]
  rfl

/-! ## The event filter: claims -/

/-- C1: for a filter built by `newEventFilter` from any suffix list and any
list of single operation kinds, and then used only through `check` (on any
history of events), `check` answers true exactly when the operation set of the
event intersects a configured operation and the filename suffix of the event
(the part after the last dot of the final path segment) is one of the
configured suffixes; the answer is the one that a fresh filter, with an empty
cache, gives. -/
theorem check_true_iff (suffixes : List GoString) (ops : List Op) (history : List Event)
    (event : Event) (hops : ∀ op ∈ ops, ∃ k, op = 2 ^ k) :
    (((checkAll (newEventFilter suffixes ops) history).check event).1 = true ↔
        ((∃ op ∈ ops, event.Op &&& op ≠ 0) ∧ filenameSuffix event.Name ∈ suffixes)) ∧
      ((checkAll (newEventFilter suffixes ops) history).check event).1 =
        ((newEventFilter suffixes ops).check event).1 := by
  constructor
  · rw [check_reachable, Bool.and_eq_true, interestingOp_iff, matchSuffix_iff,
      suffixOf_eq_filenameSuffix]
    constructor
    · rintro ⟨⟨op, hmem, hop⟩, hs⟩
      refine ⟨⟨op, hmem, ?_⟩, hs⟩
      obtain ⟨k, rfl⟩ := hops op hmem
      exact (land_two_pow_iff _ _).mp hop
    · rintro ⟨⟨op, hmem, hop⟩, hs⟩
      refine ⟨⟨op, hmem, ?_⟩, hs⟩
      obtain ⟨k, rfl⟩ := hops op hmem
      exact (land_two_pow_iff _ _).mpr hop
  · rw [check_reachable]
    exact (check_reachable suffixes ops [] event).symm

/-- Witness of C1: the filter of `main` after a first event, asked about a write
to `main.go`. -/
theorem check_true_iff_witness :
    (∀ op ∈ [Write, Create], ∃ k, op = 2 ^ k) ∧
    ((((checkAll (newEventFilter ["go".toList, "mod".toList, "sum".toList] [Write, Create])
          [⟨"main.go".toList, Write⟩]).check ⟨"main.go".toList, Write ||| Chmod⟩).1 = true ↔
        ((∃ op ∈ [Write, Create], (Write ||| Chmod) &&& op ≠ 0) ∧
          filenameSuffix "main.go".toList ∈ ["go".toList, "mod".toList, "sum".toList])) ∧
      ((checkAll (newEventFilter ["go".toList, "mod".toList, "sum".toList] [Write, Create])
          [⟨"main.go".toList, Write⟩]).check ⟨"main.go".toList, Write ||| Chmod⟩).1 =
        ((newEventFilter ["go".toList, "mod".toList, "sum".toList] [Write, Create]).check
          ⟨"main.go".toList, Write ||| Chmod⟩).1) :=
  have h : ∀ op ∈ [Write, Create], ∃ k, op = 2 ^ k := by
    intro op hop
    simp only [List.mem_cons, List.mem_singleton, List.not_mem_nil, or_false] at hop
    rcases hop with rfl | rfl
    · exact ⟨1, rfl⟩
    · exact ⟨0, rfl⟩
  ⟨h, check_true_iff _ _ _ _ h⟩

/-- C2: in every filter state, whatever the cache holds, an event whose
operation set intersects none of the watched operations (each of which names at
least one operation kind) gets the answer false, and the filter, its cache
included, is after the call what it was before. -/
theorem check_unwatched_op (ef : eventFilter) (event : Event)
    (hops : ∀ op ∈ ef.ops, op ≠ 0) (h : ∀ op ∈ ef.ops, event.Op &&& op = 0) :
    (ef.check event).1 = false ∧ (ef.check event).2.cache = ef.cache ∧
      (ef.check event).2 = ef := by
  have hno : interestingOp ef.ops event = false := by
    rw [Bool.eq_false_iff]
    intro ht
    obtain ⟨op, hmem, hop⟩ := (interestingOp_iff _ _).mp ht
    exact hops op hmem (by rw [← hop]; exact h op hmem)
  simp [eventFilter.check, hno]

/-- Witness of C2: a chmod of `main.go` on the filter of `main` whose cache
already holds that path. -/
theorem check_unwatched_op_witness :
    (∀ op ∈ [Write, Create], op ≠ 0) ∧ (∀ op ∈ [Write, Create], Chmod &&& op = 0) ∧
    ((eventFilter.check ⟨[Write, Create], ["go".toList], [("main.go".toList, true)]⟩
        ⟨"main.go".toList, Chmod⟩).1 = false ∧
      (eventFilter.check ⟨[Write, Create], ["go".toList], [("main.go".toList, true)]⟩
        ⟨"main.go".toList, Chmod⟩).2.cache = [("main.go".toList, true)] ∧
      (eventFilter.check ⟨[Write, Create], ["go".toList], [("main.go".toList, true)]⟩
        ⟨"main.go".toList, Chmod⟩).2 =
          ⟨[Write, Create], ["go".toList], [("main.go".toList, true)]⟩) :=
  ⟨by decide, by decide,
    check_unwatched_op ⟨[Write, Create], ["go".toList], [("main.go".toList, true)]⟩
      ⟨"main.go".toList, Chmod⟩ (by decide) (by decide)⟩

/-- C3: in every filter state, for an event with a watched operation whose path
is a key of the cache, `check` answers the stored boolean, whatever the suffix
list says about the path, and leaves the filter unchanged; and for every filter
state and every event with a watched operation a second `check` of the same
event gives the answer of the first. -/
theorem check_cache_hit (ef : eventFilter) (event : Event)
    (hop : ∃ op ∈ ef.ops, event.Op &&& op = op) :
    (∀ b, ef.cache.get event.Name = some b →
        (ef.check event).1 = b ∧ (ef.check event).2 = ef) ∧
      ((ef.check event).2.check event).1 = (ef.check event).1 := by
  have hi : interestingOp ef.ops event = true := (interestingOp_iff _ _).mpr hop
  constructor
  · intro b hb
    simp [eventFilter.check, hi, hb]
  · cases hc : ef.cache.get event.Name with
    | some b => simp [eventFilter.check, hi, hc]
    | none =>
      by_cases hm : matchSuffix ef.suffixes (suffixOf event.Name) = true
      · simp [eventFilter.check, hi, hc, hm, cache_get_set]
      · simp [eventFilter.check, hi, hc, hm, cache_get_set]

/-- Witness of C3: the cache says that `notes.txt` is interesting although
`txt` is not a configured suffix; `check` answers true, the stored value. -/
theorem check_cache_hit_witness :
    (∃ op ∈ [Write, Create], Write &&& op = op) ∧
    ((∀ b, Cache.get [("notes.txt".toList, true)] "notes.txt".toList = some b →
        (eventFilter.check ⟨[Write, Create], ["go".toList], [("notes.txt".toList, true)]⟩
          ⟨"notes.txt".toList, Write⟩).1 = b ∧
        (eventFilter.check ⟨[Write, Create], ["go".toList], [("notes.txt".toList, true)]⟩
          ⟨"notes.txt".toList, Write⟩).2 =
            ⟨[Write, Create], ["go".toList], [("notes.txt".toList, true)]⟩) ∧
      ((eventFilter.check ⟨[Write, Create], ["go".toList], [("notes.txt".toList, true)]⟩
          ⟨"notes.txt".toList, Write⟩).2.check ⟨"notes.txt".toList, Write⟩).1 =
        (eventFilter.check ⟨[Write, Create], ["go".toList], [("notes.txt".toList, true)]⟩
          ⟨"notes.txt".toList, Write⟩).1) :=
  ⟨by decide,
    check_cache_hit ⟨[Write, Create], ["go".toList], [("notes.txt".toList, true)]⟩
      ⟨"notes.txt".toList, Write⟩ (by decide)⟩

/-- C4: for a filter built by `newEventFilter` and then used only through
`check`, and an event whose path has an empty suffix (its final slash-separated
segment holds no dot, or ends with a dot), `check` answers true only if the
empty string is one of the configured suffixes. -/
theorem check_empty_suffix (suffixes : List GoString) (ops : List Op) (history : List Event)
    (event : Event)
    (hempty : '.' ∉ finalSegment event.Name ∨ (finalSegment event.Name).getLast? = some '.')
    (htrue : ((checkAll (newEventFilter suffixes ops) history).check event).1 = true) :
    ([] : GoString) ∈ suffixes := by
  rw [check_reachable, Bool.and_eq_true, matchSuffix_iff, suffixOf_eq_filenameSuffix] at htrue
  have hs : filenameSuffix event.Name = [] := by
    unfold filenameSuffix
    rcases hempty with h | h
    · simp [h]
    · split
      · rw [List.getLast?_eq_head?_reverse] at h
        cases hr : (finalSegment event.Name).reverse with
        | nil => simp
        | cons c cs =>
          rw [hr] at h
          simp at h
          simp [h]
      · rfl
  rw [hs] at htrue
  exact htrue.2

/-- Witness of C4: a write to `Makefile` is interesting to a filter whose
suffix list holds the empty string. -/
theorem check_empty_suffix_witness :
    ('.' ∉ finalSegment "src/Makefile".toList ∨
      (finalSegment "src/Makefile".toList).getLast? = some '.') ∧
    ((checkAll (newEventFilter ["go".toList, []] [Write, Create]) []).check
      ⟨"src/Makefile".toList, Write⟩).1 = true ∧
    ([] : GoString) ∈ ["go".toList, []] :=
  ⟨by decide, by decide,
    check_empty_suffix ["go".toList, []] [Write, Create] [] ⟨"src/Makefile".toList, Write⟩
      (by decide) (by decide)⟩

/-! ## Lemmas on time and on the control loop -/

theorem tickerInterval_pos (cfg : config) (h : 0 < tickerInterval cfg) : 4 ≤ cfg.minWait := by
  unfold tickerInterval at h
  by_contra hlt
  have hlt : cfg.minWait < 4 := by omega
  by_cases hneg : 0 ≤ cfg.minWait
  · rw [Int.tdiv_eq_ediv hneg (by decide)] at h
    omega
  · have h2 : Int.tdiv cfg.minWait 4 = -(Int.tdiv (-cfg.minWait) 4) := by
      rw [Int.neg_tdiv, neg_neg]
    rw [h2, Int.tdiv_eq_ediv (by omega) (by decide)] at h
    omega

theorem sub_gt_imp (m t u : Int) (hm : minDuration ≤ m) (h : m < Time.Sub t u) : m < t - u := by
  unfold Time.Sub at h
  simp only [maxDuration, minDuration] at *
  split_ifs at h <;> omega

theorem sub_le_of_lt (m t u : Int) (hm : minDuration ≤ m) (h : t - u < m) :
    ¬ m < Time.Sub t u := fun hs => by
  have := sub_gt_imp m t u hm hs
  omega

theorem interesting_check (suffixes : List GoString) (ef : eventFilter) (ev : Event)
    (hc : CacheOK ef) (hops : ef.ops = [Write, Create]) (hs : ef.suffixes = suffixes)
    (hi : Interesting suffixes ev) : (ef.check ev).1 = true := by
  rw [check_fst_of_cacheOK ef ev hc, Bool.and_eq_true, interestingOp_iff, matchSuffix_iff,
    suffixOf_eq_filenameSuffix, hops, hs]
  obtain ⟨⟨op, hmem, hop⟩, hsuf⟩ := hi
  refine ⟨⟨op, hmem, ?_⟩, hsuf⟩
  simp only [List.mem_cons, List.mem_singleton, List.not_mem_nil, or_false] at hmem
  rcases hmem with rfl | rfl
  · exact (land_two_pow_iff ev.Op 1).mpr hop
  · exact (land_two_pow_iff ev.Op 0).mpr hop

theorem runLoop_append (cfg : config) (a : List Input) :
    ∀ (s : LoopState) (b : List Input),
      runLoop cfg s (a ++ b) =
        ((runLoop cfg (runLoop cfg s a).1 b).1,
          (runLoop cfg s a).2 ++ (runLoop cfg (runLoop cfg s a).1 b).2) := by
  induction a with
  | nil => intro s b; simp [runLoop]
  | cons i rest ih => intro s b; simp [runLoop, ih]

theorem tick_nothing (cfg : config) (s : LoopState) (t : Int) (hrun : s.phase = Phase.running)
    (h : ¬ (s.waiting = true ∧ cfg.minWait < Time.Sub t s.last)) :
    loopStep cfg s (Input.tick t) = (s, Effect.nothing) := by
  have hc : (s.waiting && decide (Time.Sub t s.last > cfg.minWait)) = false := by
    rw [Bool.eq_false_iff]
    intro hb
    simp only [Bool.and_eq_true, decide_eq_true_eq] at hb
    exact h hb
  simp [loopStep, hrun, hc]

theorem ticks_nothing (cfg : config) (s : LoopState) (hrun : s.phase = Phase.running)
    (ticks : List Int)
    (h : ∀ t ∈ ticks, ¬ (s.waiting = true ∧ cfg.minWait < Time.Sub t s.last)) :
    runLoop cfg s (ticks.map Input.tick) = (s, List.replicate ticks.length Effect.nothing) := by
  induction ticks with
  | nil => rfl
  | cons t rest ih =>
    have h1 := tick_nothing cfg s t hrun (h t (by simp))
    have h2 := ih (fun u hu => h u (by simp [hu]))
    simp [runLoop, h1, h2, List.replicate_succ]

theorem event_interesting (cfg : config) (s : LoopState) (ev : Event) (now : Int)
    (hs : Settled cfg s) (hi : Interesting cfg.suffixes ev) :
    (loopStep cfg s (Input.event ev now)).2 = Effect.nothing ∧
      Settled cfg (loopStep cfg s (Input.event ev now)).1 ∧
      (loopStep cfg s (Input.event ev now)).1.waiting = true ∧
      (loopStep cfg s (Input.event ev now)).1.last = now := by
  obtain ⟨hrun, hc, hops, hsuf, hdoit⟩ := hs
  have hch := interesting_check cfg.suffixes s.filter ev hc hops hsuf hi
  have hstep : loopStep cfg s (Input.event ev now) =
      ({ s with filter := (s.filter.check ev).2, last := now, waiting := true },
        Effect.nothing) := by
    simp [loopStep, hrun, hch]
  rw [hstep]
  refine ⟨rfl, ⟨hrun, check_cacheOK _ _ hc, ?_, ?_, hdoit⟩, rfl, rfl⟩
  · simp only [check_ops, hops]
  · simp only [check_suffixes, hsuf]

theorem round_run (cfg : config) (hm : 4 ≤ cfg.minWait) (s : LoopState) (r : Round)
    (hs : Settled cfg s) (hi : Interesting cfg.suffixes r.ev)
    (hprev : s.waiting = true → r.now - s.last < cfg.minWait)
    (hticks : ∀ t ∈ r.ticks, t ≤ r.now) :
    Settled cfg (runLoop cfg s r.inputs).1 ∧ (runLoop cfg s r.inputs).1.waiting = true ∧
      (runLoop cfg s r.inputs).1.last = r.now ∧
      (runLoop cfg s r.inputs).2 = List.replicate r.inputs.length Effect.nothing := by
  have hquiet : ∀ t ∈ r.ticks, ¬ (s.waiting = true ∧ cfg.minWait < Time.Sub t s.last) := by
    intro t ht hw
    have h1 := hprev hw.1
    have h2 := hticks t ht
    exact sub_le_of_lt cfg.minWait t s.last (by simp only [minDuration]; omega) (by omega) hw.2
  have ht := ticks_nothing cfg s hs.1 r.ticks hquiet
  obtain ⟨e1, e2, e3, e4⟩ := event_interesting cfg s r.ev r.now hs hi
  unfold Round.inputs
  rw [runLoop_append, ht]
  simp only [runLoop, e1]
  refine ⟨e2, e3, e4, ?_⟩
  simp [List.replicate_succ', List.replicate_add]

theorem burst_run (cfg : config) (hm : 4 ≤ cfg.minWait) (more : List Round) :
    ∀ (first : Round) (s : LoopState), Settled cfg s →
      (s.waiting = true → first.now - s.last < cfg.minWait) →
      (∀ r ∈ first :: more, Interesting cfg.suffixes r.ev) →
      (∀ r ∈ first :: more, ∀ t ∈ r.ticks, t ≤ r.now) →
      List.Chain (fun a b => b.now - a.now < cfg.minWait) first more →
      Settled cfg (runLoop cfg s (burstInputs (first :: more))).1 ∧
        (runLoop cfg s (burstInputs (first :: more))).1.waiting = true ∧
        (runLoop cfg s (burstInputs (first :: more))).1.last = lastNow first more ∧
        (runLoop cfg s (burstInputs (first :: more))).2 =
          List.replicate (burstInputs (first :: more)).length Effect.nothing := by
  induction more with
  | nil =>
    intro first s hs hprev hi hticks _
    obtain ⟨r1, r2, r3, r4⟩ :=
      round_run cfg hm s first hs (hi first (by simp)) hprev (hticks first (by simp))
    simp only [burstInputs, List.append_nil, lastNow]
    exact ⟨r1, r2, r3, r4⟩
  | cons second rest ih =>
    intro first s hs hprev hi hticks hchain
    obtain ⟨r1, r2, r3, r4⟩ :=
      round_run cfg hm s first hs (hi first (by simp)) hprev (hticks first (by simp))
    rw [List.chain_cons] at hchain
    obtain ⟨q1, q2, q3, q4⟩ := ih second (runLoop cfg s first.inputs).1 r1
      (fun _ => by rw [r3]; exact hchain.1)
      (fun r hr => hi r (List.mem_cons_of_mem _ hr))
      (fun r hr => hticks r (List.mem_cons_of_mem _ hr)) hchain.2
    have hb : burstInputs (first :: second :: rest) =
        first.inputs ++ burstInputs (second :: rest) := rfl
    rw [hb, runLoop_append]
    refine ⟨q1, q2, q3, ?_⟩
    simp only [r4, q4, List.length_append, List.replicate_add]

theorem runLoop_halted (cfg : config) (l : List Input) :
    ∀ s : LoopState, s.phase ≠ Phase.running → (runLoop cfg s l).1 = s := by
  induction l with
  | nil => intro s _; rfl
  | cons i rest ih =>
    intro s hs
    have h1 : loopStep cfg s i = (s, Effect.notReady) := by simp [loopStep, hs]
    simp only [runLoop, h1]
    exact ih s hs

theorem runLoop_running (cfg : config) (s : LoopState) (l : List Input)
    (h : (runLoop cfg s l).1.phase = Phase.running) : s.phase = Phase.running := by
  by_contra hs
  rw [runLoop_halted cfg l s hs] at h
  exact hs h

theorem pending_run (cfg : config) (l : List Input) :
    ∀ s : LoopState, s.doit ≠ [] → Input.doit ∉ l →
      (runLoop cfg s l).1.phase = Phase.running →
      (runLoop cfg s l).1.doit ≠ [] ∧
        (runLoop cfg s l).1.last = (acceptedTimes s.filter l).getLastD s.last := by
  induction l with
  | nil => intro s hd _ _; exact ⟨hd, rfl⟩
  | cons i rest ih =>
    intro s hd hno hfin
    have hrest : Input.doit ∉ rest := fun h => hno (List.mem_cons_of_mem _ h)
    have hfin2 : (runLoop cfg (loopStep cfg s i).1 rest).1.phase = Phase.running := hfin
    have hmid := runLoop_running cfg _ rest hfin2
    have hrun : s.phase = Phase.running := runLoop_running cfg s (i :: rest) hfin
    have hlen : ¬ s.doit.length < 1 := by
      cases hs : s.doit with
      | nil => exact absurd hs hd
      | cons b bs => simp
    show (runLoop cfg (loopStep cfg s i).1 rest).1.doit ≠ [] ∧
      (runLoop cfg (loopStep cfg s i).1 rest).1.last =
        (acceptedTimes s.filter (i :: rest)).getLastD s.last
    cases i with
    | event ev now =>
      by_cases hacc : (s.filter.check ev).1 = true
      · have hstep : loopStep cfg s (Input.event ev now) =
            ({ s with filter := (s.filter.check ev).2, last := now, waiting := true },
              Effect.nothing) := by
          simp [loopStep, hrun, hacc]
        obtain ⟨h1, h2⟩ := ih (loopStep cfg s (Input.event ev now)).1
          (by rw [hstep]; exact hd) hrest hfin2
        refine ⟨h1, ?_⟩
        rw [h2, hstep]
        simp only [acceptedTimes, hacc, if_true, List.getLastD_cons]
      · have hstep : loopStep cfg s (Input.event ev now) =
            ({ s with filter := (s.filter.check ev).2 }, Effect.nothing) := by
          simp [loopStep, hrun, hacc]
        obtain ⟨h1, h2⟩ := ih (loopStep cfg s (Input.event ev now)).1
          (by rw [hstep]; exact hd) hrest hfin2
        refine ⟨h1, ?_⟩
        rw [h2, hstep]
        simp only [acceptedTimes, hacc]
        rfl
    | eventsClosed =>
      have hstep : (loopStep cfg s Input.eventsClosed).1.phase = Phase.returned := by
        simp [loopStep, hrun]
      rw [hstep] at hmid
      cases hmid
    | error =>
      have hstep : loopStep cfg s Input.error = (s, Effect.printed) := by
        simp [loopStep, hrun]
      obtain ⟨h1, h2⟩ := ih (loopStep cfg s Input.error).1
        (by rw [hstep]; exact hd) hrest hfin2
      refine ⟨h1, ?_⟩
      rw [h2, hstep]
      simp only [acceptedTimes]
    | errorsClosed =>
      have hstep : (loopStep cfg s Input.errorsClosed).1.phase = Phase.returned := by
        simp [loopStep, hrun]
      rw [hstep] at hmid
      cases hmid
    | tick t =>
      by_cases hc : (s.waiting && decide (Time.Sub t s.last > cfg.minWait)) = true
      · have hstep : (loopStep cfg s (Input.tick t)).1.phase = Phase.blocked := by
          simp only [loopStep, hrun, ne_eq, not_true_eq_false, if_false, hc, if_true, hlen]
        rw [hstep] at hmid
        cases hmid
      · have hstep : loopStep cfg s (Input.tick t) = (s, Effect.nothing) := by
          simp only [loopStep, hrun, ne_eq, not_true_eq_false, if_false, hc]
          rfl
        obtain ⟨h1, h2⟩ := ih (loopStep cfg s (Input.tick t)).1
          (by rw [hstep]; exact hd) hrest hfin2
        refine ⟨h1, ?_⟩
        rw [h2, hstep]
        simp only [acceptedTimes]
    | doit => exact absurd (List.mem_cons_self _ _) hno

theorem quiet_run (cfg : config) (s : LoopState) (hs : Settled cfg s) (hw : s.waiting = true)
    (early : List Int) (late : Int) (after : List Int)
    (hearly : ∀ t ∈ early, Time.Sub t s.last ≤ cfg.minWait)
    (hlate : cfg.minWait < Time.Sub late s.last) :
    (runLoop cfg s
        (early.map Input.tick ++ Input.tick late :: Input.doit :: after.map Input.tick)).2 =
      List.replicate early.length Effect.nothing ++
        Effect.sent :: Effect.ran :: List.replicate after.length Effect.nothing := by
  obtain ⟨hrun, _, _, _, hdoit⟩ := hs
  have h1 := ticks_nothing cfg s hrun early
    (fun t ht hc => absurd hc.2 (not_lt.mpr (hearly t ht)))
  have h2 : loopStep cfg s (Input.tick late) = ({ s with doit := [true] }, Effect.sent) := by
    simp [loopStep, hrun, hw, hlate, hdoit]
  have h3 : loopStep cfg { s with doit := [true] } Input.doit =
      ({ s with doit := [], waiting := false }, Effect.ran) := by
    simp [loopStep, hrun]
  have h4 := ticks_nothing cfg { s with doit := [], waiting := false } hrun after
    (fun t _ hc => by simp at hc)
  rw [runLoop_append, h1]
  simp only [runLoop, h2, h3, h4]

/-- What the loop does when the pending trigger is taken before the next tick.
The loop starts idle with its ticker created; a burst of interesting events is
handled, each less than min-wait after the one before, with any ticks in
between (a tick handled before an event fired no later than the handling of
that event); then come ticks while the elapsed time is at most min-wait, the
first tick that comes later, the receive from `doit`, and further ticks. No
run-trigger is sent while the burst is in progress, one is sent in all, and no
send blocks. -/
theorem burst_then_prompt_run (cfg : config) (first : Round) (more : List Round)
    (early : List Int) (late : Int) (after : List Int)
    (hticker : 0 < tickerInterval cfg)
    (hint : ∀ r ∈ first :: more, Interesting cfg.suffixes r.ev)
    (hticks : ∀ r ∈ first :: more, ∀ t ∈ r.ticks, t ≤ r.now)
    (hspaced : List.Chain (fun a b => b.now - a.now < cfg.minWait) first more)
    (hearly : ∀ t ∈ early, Time.Sub t (lastNow first more) ≤ cfg.minWait)
    (hlate : cfg.minWait < Time.Sub late (lastNow first more)) :
    (runLoop cfg (loopInit cfg) (burstInputs (first :: more))).2.count Effect.sent = 0 ∧
      (runLoop cfg (loopInit cfg) (burstInputs (first :: more))).2.count Effect.stuck = 0 ∧
      (runLoop cfg (loopInit cfg) (burstInputs (first :: more) ++
        (early.map Input.tick ++ Input.tick late :: Input.doit :: after.map Input.tick))).2.count
          Effect.sent = 1 ∧
      (runLoop cfg (loopInit cfg) (burstInputs (first :: more) ++
        (early.map Input.tick ++ Input.tick late :: Input.doit :: after.map Input.tick))).2.count
          Effect.stuck = 0 := by
  have hm := tickerInterval_pos cfg hticker
  have hinit : Settled cfg (loopInit cfg) :=
    ⟨rfl, newEventFilter_cacheOK _ _, rfl, rfl, rfl⟩
  obtain ⟨b1, b2, b3, b4⟩ := burst_run cfg hm more first (loopInit cfg) hinit
    (fun h => by simp [loopInit] at h) hint hticks hspaced
  have hq := quiet_run cfg _ b1 b2 early late after (by rw [b3]; exact hearly)
    (by rw [b3]; exact hlate)
  rw [runLoop_append, hq, b4]
  simp [List.count_replicate]

/-! ## The control loop: claims -/

/-- C5, what the code does: the loop starts idle under the default
configuration, ticking every 62.5 ms; a burst of one write is handled at 1 ms
and silence follows. The ticks up to 250 ms come too early, the tick of
312.5 ms sends the run-trigger, and `select` takes the tick of 375 ms before
the pending trigger: the loop is still armed, the handler sends a second time,
on the full channel, and the goroutine blocks. Two sends are attempted for the
one burst, and the command is never run. -/
theorem burst_second_send_blocks :
    0 < tickerInterval defaultConfig ∧
    Interesting defaultConfig.suffixes writeMain ∧
    (runLoop defaultConfig (loopInit defaultConfig)
      [Input.event writeMain 1000000, Input.tick 62500000, Input.tick 125000000,
        Input.tick 187500000, Input.tick 250000000, Input.tick 312500000,
        Input.tick 375000000, Input.doit]).2 =
      [Effect.nothing, Effect.nothing, Effect.nothing, Effect.nothing, Effect.nothing,
        Effect.sent, Effect.stuck, Effect.notReady] ∧
    (runLoop defaultConfig (loopInit defaultConfig)
      [Input.event writeMain 1000000, Input.tick 62500000, Input.tick 125000000,
        Input.tick 187500000, Input.tick 250000000, Input.tick 312500000]).1.waiting = true ∧
    (runLoop defaultConfig (loopInit defaultConfig)
      [Input.event writeMain 1000000, Input.tick 62500000, Input.tick 125000000,
        Input.tick 187500000, Input.tick 250000000, Input.tick 312500000,
        Input.tick 375000000, Input.doit]).1.phase = Phase.blocked := by
  decide

/-- C6: in every state of a loop whose ticker was created, a tick whose
handler sends a run-trigger (or tries to, and blocks) finds the loop armed,
with the elapsed time that the handler computes, and the true difference
between the time of the tick and `last`, at least min-wait; an idle loop sends
nothing on a tick, and an armed loop sends nothing on a tick whose elapsed time
is below min-wait. -/
theorem tick_sends_only_after_wait (cfg : config) (s : LoopState) (t : Int)
    (hticker : 0 < tickerInterval cfg) :
    (((loopStep cfg s (Input.tick t)).2 = Effect.sent ∨
          (loopStep cfg s (Input.tick t)).2 = Effect.stuck) →
        s.waiting = true ∧ cfg.minWait ≤ Time.Sub t s.last ∧ cfg.minWait ≤ t - s.last) ∧
      (s.waiting = false →
        (loopStep cfg s (Input.tick t)).2 ≠ Effect.sent ∧
          (loopStep cfg s (Input.tick t)).2 ≠ Effect.stuck) ∧
      (s.waiting = true → (Time.Sub t s.last < cfg.minWait ∨ t - s.last < cfg.minWait) →
        (loopStep cfg s (Input.tick t)).2 ≠ Effect.sent ∧
          (loopStep cfg s (Input.tick t)).2 ≠ Effect.stuck) := by
  have hm := tickerInterval_pos cfg hticker
  have hmin : minDuration ≤ cfg.minWait := by simp only [minDuration]; omega
  have key : ((loopStep cfg s (Input.tick t)).2 = Effect.sent ∨
      (loopStep cfg s (Input.tick t)).2 = Effect.stuck) →
      s.waiting = true ∧ cfg.minWait < Time.Sub t s.last := by
    intro h
    by_contra hc
    by_cases hrun : s.phase = Phase.running
    · rw [tick_nothing cfg s t hrun hc] at h
      simp at h
    · simp [loopStep, hrun] at h
  refine ⟨?_, ?_, ?_⟩
  · intro h
    obtain ⟨h1, h2⟩ := key h
    exact ⟨h1, le_of_lt h2, le_of_lt (sub_gt_imp _ _ _ hmin h2)⟩
  · intro hw
    constructor
    · intro h; have := (key (Or.inl h)).1; rw [hw] at this; cases this
    · intro h; have := (key (Or.inr h)).1; rw [hw] at this; cases this
  · intro _ hlt
    have hno : ¬ cfg.minWait < Time.Sub t s.last := by
      rcases hlt with h | h
      · omega
      · exact sub_le_of_lt _ _ _ hmin h
    constructor
    · intro h; exact hno (key (Or.inl h)).2
    · intro h; exact hno (key (Or.inr h)).2

/-- Witness of C6: the default configuration, the loop armed by a write handled
at 1 ms, and a tick at 300 ms. -/
theorem tick_sends_only_after_wait_witness :
    0 < tickerInterval defaultConfig ∧
    ((loopStep defaultConfig
        (loopStep defaultConfig (loopInit defaultConfig) (Input.event writeMain 1000000)).1
        (Input.tick 300000000)).2 = Effect.sent ∧
      defaultConfig.minWait ≤ (300000000 : Int) -
        (loopStep defaultConfig (loopInit defaultConfig)
          (Input.event writeMain 1000000)).1.last) :=
  ⟨by decide, by decide,
    ((tick_sends_only_after_wait defaultConfig
      (loopStep defaultConfig (loopInit defaultConfig) (Input.event writeMain 1000000)).1
      300000000 (by decide)).1 (Or.inl (by decide))).2.2⟩

/-- C7, as the code has it: for a running, armed loop with no trigger pending, a
tick whose elapsed time is strictly greater than min-wait makes the handler
send a run-trigger; a tick whose elapsed time is exactly min-wait sends
nothing. -/
theorem tick_sends_when_quiet (cfg : config) (s : LoopState) (t : Int)
    (hrun : s.phase = Phase.running) (hw : s.waiting = true) (hempty : s.doit = []) :
    (cfg.minWait < Time.Sub t s.last →
        loopStep cfg s (Input.tick t) = ({ s with doit := [true] }, Effect.sent)) ∧
      (Time.Sub t s.last = cfg.minWait →
        loopStep cfg s (Input.tick t) = (s, Effect.nothing)) := by
  constructor
  · intro h
    simp [loopStep, hrun, hw, hempty, h]
  · intro h
    exact tick_nothing cfg s t hrun (fun hc => by rw [h] at hc; exact lt_irrefl _ hc.2)

/-- Witness of C7 as amended: the loop armed at 1 ms, a tick one nanosecond
after min-wait has elapsed. -/
theorem tick_sends_when_quiet_witness :
    (loopStep defaultConfig (loopInit defaultConfig) (Input.event writeMain 1000000)).1.phase
        = Phase.running ∧
    (loopStep defaultConfig (loopInit defaultConfig) (Input.event writeMain 1000000)).1.waiting
        = true ∧
    defaultConfig.minWait < Time.Sub 251000001
      (loopStep defaultConfig (loopInit defaultConfig) (Input.event writeMain 1000000)).1.last ∧
    (loopStep defaultConfig
      (loopStep defaultConfig (loopInit defaultConfig) (Input.event writeMain 1000000)).1
      (Input.tick 251000001)).2 = Effect.sent :=
  ⟨by decide, by decide, by decide,
    congrArg Prod.snd ((tick_sends_when_quiet defaultConfig
      (loopStep defaultConfig (loopInit defaultConfig) (Input.event writeMain 1000000)).1
      251000001 (by decide) (by decide) (by decide)).1 (by decide))⟩

/-- Counterexample to C7 as stated: the loop is armed by a write handled at
1 ms, no trigger is pending, and the tick comes when exactly min-wait (250 ms)
has elapsed; the handler sends nothing and the loop stays armed. -/
theorem tick_at_min_wait_sends_nothing :
    (loopStep defaultConfig (loopInit defaultConfig) (Input.event writeMain 1000000)).1.waiting
        = true ∧
    (loopStep defaultConfig (loopInit defaultConfig) (Input.event writeMain 1000000)).1.doit
        = [] ∧
    Time.Sub 251000000
      (loopStep defaultConfig (loopInit defaultConfig) (Input.event writeMain 1000000)).1.last
        ≥ defaultConfig.minWait ∧
    (loopStep defaultConfig
      (loopStep defaultConfig (loopInit defaultConfig) (Input.event writeMain 1000000)).1
      (Input.tick 251000000)).2 = Effect.nothing ∧
    (loopStep defaultConfig
      (loopStep defaultConfig (loopInit defaultConfig) (Input.event writeMain 1000000)).1
      (Input.tick 251000000)).1.waiting = true := by
  decide

/-- C8, as the code has it: an event that the filter accepts is handled while a
run-trigger is pending; whatever the loop handles next before it takes the
trigger (errors, ticks, further events, accepted or not) without blocking or
returning, the pass that takes the trigger runs the command, after the event,
and leaves the loop idle, `waiting` false, with `last` the handling time of the
latest accepted event (of that event itself when none is accepted after it); no
tick that follows, however late, sends a trigger from that state. -/
theorem event_before_run_not_rearmed (cfg : config) (s : LoopState) (ev : Event) (now : Int)
    (between : List Input) (hpending : s.doit ≠ [])
    (hev : (s.filter.check ev).1 = true) (hno : Input.doit ∉ between)
    (hstill : (runLoop cfg s (Input.event ev now :: between)).1.phase = Phase.running) :
    (loopStep cfg (runLoop cfg s (Input.event ev now :: between)).1 Input.doit).2
        = Effect.ran ∧
      (loopStep cfg (runLoop cfg s (Input.event ev now :: between)).1 Input.doit).1.waiting
        = false ∧
      (loopStep cfg (runLoop cfg s (Input.event ev now :: between)).1 Input.doit).1.last
        = (acceptedTimes (s.filter.check ev).2 between).getLastD now ∧
      ∀ ticks : List Int,
        (runLoop cfg
          (loopStep cfg (runLoop cfg s (Input.event ev now :: between)).1 Input.doit).1
          (ticks.map Input.tick)).2 = List.replicate ticks.length Effect.nothing := by
  have hmem : Input.doit ∉ Input.event ev now :: between := by
    intro h
    rcases List.mem_cons.mp h with h | h
    · cases h
    · exact hno h
  obtain ⟨hd, hlast⟩ := pending_run cfg (Input.event ev now :: between) s hpending hmem hstill
  have hacc : (acceptedTimes s.filter (Input.event ev now :: between)).getLastD s.last =
      (acceptedTimes (s.filter.check ev).2 between).getLastD now := by
    simp only [acceptedTimes, hev, if_true, List.getLastD_cons]
  rw [hacc] at hlast
  generalize (runLoop cfg s (Input.event ev now :: between)).1 = before at hstill hd hlast ⊢
  cases hb : before.doit with
  | nil => exact absurd hb hd
  | cons b rest =>
    have h2 : loopStep cfg before Input.doit =
        ({ before with doit := rest, waiting := false }, Effect.ran) := by
      simp [loopStep, hstill, hb]
    rw [h2]
    refine ⟨rfl, rfl, hlast, fun ticks => ?_⟩
    have := ticks_nothing cfg { before with doit := rest, waiting := false } hstill ticks
      (fun t _ hc => by simp at hc)
    rw [this]

/-- Witness of C8 as amended: the trigger for a write to `main.go` is pending
when `go.mod` is created at 301 ms; an error, a tick, a write to `notes.txt`
and a second write to `main.go` at 302 ms are handled before the trigger is
taken. -/
theorem event_before_run_not_rearmed_witness :
    (runLoop defaultConfig (loopInit defaultConfig)
      [Input.event writeMain 1000000, Input.tick 300000000]).1.doit ≠ [] ∧
    (loopStep defaultConfig
      (runLoop defaultConfig
        (runLoop defaultConfig (loopInit defaultConfig)
          [Input.event writeMain 1000000, Input.tick 300000000]).1
        (Input.event createMod 301000000 ::
          [Input.error, Input.tick 301200000, Input.event writeNotes 301500000,
            Input.event writeMain 302000000])).1 Input.doit).1.waiting = false ∧
    (loopStep defaultConfig
      (runLoop defaultConfig
        (runLoop defaultConfig (loopInit defaultConfig)
          [Input.event writeMain 1000000, Input.tick 300000000]).1
        (Input.event createMod 301000000 ::
          [Input.error, Input.tick 301200000, Input.event writeNotes 301500000,
            Input.event writeMain 302000000])).1 Input.doit).1.last = 302000000 :=
  ⟨by decide,
    (event_before_run_not_rearmed defaultConfig
      (runLoop defaultConfig (loopInit defaultConfig)
        [Input.event writeMain 1000000, Input.tick 300000000]).1
      createMod 301000000
      [Input.error, Input.tick 301200000, Input.event writeNotes 301500000,
        Input.event writeMain 302000000]
      (by decide) (by decide) (by decide) (by decide)).2.1,
    (event_before_run_not_rearmed defaultConfig
      (runLoop defaultConfig (loopInit defaultConfig)
        [Input.event writeMain 1000000, Input.tick 300000000]).1
      createMod 301000000
      [Input.error, Input.tick 301200000, Input.event writeNotes 301500000,
        Input.event writeMain 302000000]
      (by decide) (by decide) (by decide) (by decide)).2.2.1⟩

/-- Counterexample to C8 as stated: a write arms the loop, the tick at 300 ms
sends the trigger, `go.mod` is created and handled at 301 ms, before the loop
takes the trigger; after the trigger is taken the loop is idle, not armed, and
a tick ten seconds later sends nothing. -/
theorem event_before_run_leaves_idle :
    (runLoop defaultConfig (loopInit defaultConfig)
      [Input.event writeMain 1000000, Input.tick 300000000,
        Input.event createMod 301000000, Input.doit, Input.tick 10301000000]).2 =
      [Effect.nothing, Effect.sent, Effect.nothing, Effect.ran, Effect.nothing] ∧
    (runLoop defaultConfig (loopInit defaultConfig)
      [Input.event writeMain 1000000, Input.tick 300000000,
        Input.event createMod 301000000]).1.waiting = true ∧
    (runLoop defaultConfig (loopInit defaultConfig)
      [Input.event writeMain 1000000, Input.tick 300000000,
        Input.event createMod 301000000, Input.doit]).1.waiting = false ∧
    (runLoop defaultConfig (loopInit defaultConfig)
      [Input.event writeMain 1000000, Input.tick 300000000,
        Input.event createMod 301000000, Input.doit]).1.last = 301000000 := by
  decide

theorem configure_suffixes_default (parseDuration : GoString → Option Int)
    (osArgs : List GoString) (c : config) (h : configure parseDuration osArgs = Except.ok c) :
    c.suffixes = ["go".toList, "mod".toList, "sum".toList] := by
  unfold configure at h
  simp only at h
  split at h
  · cases h
  · split at h
    · cases h
    · cases h
      rfl

/-- C9, what the code does: whatever value the command line gives to
`-suffixes`, here `rs`, the suffixes of the configuration that `configure`
returns are `go`, `mod` and `sum`, because they are split from the default
before the flags are parsed. -/
theorem configure_ignores_suffixes_flag (parseDuration : GoString → Option Int) :
    configure parseDuration
        ["-suffixes".toList, "rs".toList, "cargo".toList, "build".toList] =
      Except.ok
        { command := "cargo".toList
          args := ["build".toList]
          suffixes := ["go".toList, "mod".toList, "sum".toList]
          minWait := 250 * Millisecond } ∧
    splitTrimSpace "rs".toList [','] = ["rs".toList] := by
  exact ⟨rfl, rfl⟩

/-- C10, what the code does: a write arms the loop, the tick at 300 ms sends the
trigger, and `select` takes the next tick, at 362.5 ms, before the pending
trigger; the loop is still armed, the handler sends again on the full channel,
and the goroutine blocks for ever with the first trigger never taken. -/
theorem second_tick_blocks_loop :
    (runLoop defaultConfig (loopInit defaultConfig)
      [Input.event writeMain 1000000, Input.tick 300000000, Input.tick 362500000]).2 =
      [Effect.nothing, Effect.sent, Effect.stuck] ∧
    (runLoop defaultConfig (loopInit defaultConfig)
      [Input.event writeMain 1000000, Input.tick 300000000, Input.tick 362500000]).1.phase =
      Phase.blocked ∧
    (runLoop defaultConfig (loopInit defaultConfig)
      [Input.event writeMain 1000000, Input.tick 300000000, Input.tick 362500000,
        Input.doit]).2 =
      [Effect.nothing, Effect.sent, Effect.stuck, Effect.notReady] := by
  decide

end Watchspawn
